import Mathlib

/-!
# Verification of the stock dashboard quote pipeline

Shallow embedding of the core logic of `src/App.tsx`: the symbol
normalizer (`parseSymbols`), the per-symbol quote classifier (the body of
the fetch loop), the fetch-cycle orchestration (`fetchStocks`), the sort
toggle (`handleSort`) and the row sorter (`sortedRows`).

JavaScript values that can flow through the classifier are modelled by
`Json` (JSON.parse never yields `undefined`; absence of an object field is
modelled by `Option Json` with `none` for `undefined`).  JavaScript
numbers are modelled by `JsNumber`: either NaN or an exact rational
(JSON source numbers are finite decimals, and `parseFloat` of a decimal
string is modelled exactly; binary-float rounding is not modelled, and
no claim depends on it).  A thrown JavaScript exception is modelled by
`Except Thrown`.
-/

namespace StockDash

/-- JSON values, as produced by `res.json()` / `JSON.parse`.  Object
fields are an association list; `JSON.parse` yields objects with unique
keys, and field lookup is standard association-list lookup. -/
inductive Json where
  | null
  | bool (b : Bool)
  | num (q : ℚ)
  | str (s : String)
  | arr (elems : List Json)
  | obj (fields : List (String × Json))
deriving Repr

/-- A thrown JavaScript value: an `Error` object carrying a message, or
any non-`Error` value (`err instanceof Error` fails). -/
inductive Thrown where
  | errObj (msg : String)
  | nonErrorValue
deriving DecidableEq, Repr

/-- A JavaScript number: NaN or an exact value. -/
inductive JsNumber where
  | nan
  | val (q : ℚ)
deriving DecidableEq, Repr

/-- Association-list field lookup (`obj[key]` on a parsed-JSON object). -/
def lookupField (fields : List (String × Json)) (key : String) : Option Json :=
  match fields with
  | [] => none
  | (k, v) :: rest => if k = key then some v else lookupField rest key

/-- JavaScript property access `j[key]` for the quote keys used by the
source (`"Note"`, `"Information"`, `"Error Message"`, `"Global Quote"`,
`"05. price"`, `"10. change percent"`).  Access on `null` throws a
TypeError; on objects it is field lookup; on any other value those keys
are absent, giving `undefined` (`none`). -/
def getProp (j : Json) (key : String) : Except Thrown (Option Json) :=
  match j with
  | .null => .error (.errObj ("Cannot read properties of null (reading " ++ key ++ ")"))
  | .obj fields => .ok (lookupField fields key)
  | _ => .ok none

/-- JavaScript truthiness of a value (`none` = `undefined`). -/
def truthy (v : Option Json) : Bool :=
  match v with
  | none => false
  | some .null => false
  | some (.bool b) => b
  | some (.num q) => decide (q ≠ 0)
  | some (.str s) => decide (s ≠ "")
  | some (.arr _) => true
  | some (.obj _) => true

/-- The JavaScript test `typeof v === "string"`. -/
def isStringV (v : Option Json) : Bool :=
  match v with
  | some (.str _) => true
  | _ => false

/-- The count `Object.keys(j).length` for a non-null value: number of own
enumerable keys (object keys, array indices, string character indices;
zero for primitives). -/
def keysLength (j : Json) : Nat :=
  match j with
  | .obj fields => ((fields.map Prod.fst).dedup).length
  | .arr elems => elems.length
  | .str s => s.length
  | _ => 0

/-- Numeric value of a list of decimal digit characters. -/
def digitsToNat (ds : List Char) : Nat :=
  ds.foldl (fun a c => a * 10 + (c.toNat - ('0').toNat)) 0

/-- Parse the longest decimal-literal prefix after the sign:
digits, optionally a dot and more digits.  `none` when no digit is
found at all (NaN). -/
def parseDecimal (cs : List Char) : Option ℚ :=
  let intPart := cs.takeWhile Char.isDigit
  let rest := cs.dropWhile Char.isDigit
  match rest with
  | '.' :: rest2 =>
    let fracPart := rest2.takeWhile Char.isDigit
    if intPart = [] ∧ fracPart = [] then none
    else some (mkRat (digitsToNat (intPart ++ fracPart)) (10 ^ fracPart.length))
  | _ =>
    if intPart = [] then none else some (mkRat (digitsToNat intPart) 1)

/-- JavaScript `parseFloat` on a string: skip leading whitespace, optional sign,
then the longest decimal-literal prefix; NaN when none.  (Exponent and
`Infinity` forms are outside the shapes exercised here and parse to NaN
in this model.) -/
def parseFloatStr (s : String) : JsNumber :=
  let cs := s.data.dropWhile Char.isWhitespace
  match cs with
  | '-' :: rest =>
    match parseDecimal rest with
    | none => .nan
    | some q => .val (-q)
  | '+' :: rest =>
    match parseDecimal rest with
    | none => .nan
    | some q => .val q
  | _ =>
    match parseDecimal cs with
    | none => .nan
    | some q => .val q

/-- JavaScript `parseFloat` applied to a JSON value: strings are parsed; a number
round-trips to itself; `true`/`false`/`null` stringify to non-numeric
text (NaN); composite values coerce to NaN in this model (the source
only ever reaches this with the truthy contents of a quote field). -/
def parseFloatJ (j : Json) : JsNumber :=
  match j with
  | .str s => parseFloatStr s
  | .num q => .val q
  | _ => .nan

/-- The function `parseFloat` applied to a possibly-`undefined` value. -/
def parseFloatV (v : Option Json) : JsNumber :=
  match v with
  | none => .nan
  | some j => parseFloatJ j

/-- JavaScript `s.replace("%", "")`: remove the first occurrence of `%`. -/
def stripFirstPercent (cs : List Char) : List Char :=
  match cs with
  | [] => []
  | c :: rest => if c = '%' then rest else c :: stripFirstPercent rest

/-- String-level wrapper for `replace("%", "")`. -/
def replacePercent (s : String) : String :=
  String.mk (stripFirstPercent s.data)

/-- Row status taxonomy. -/
inductive Status where
  | ok
  | rateLimited
  | error
  | noData
deriving DecidableEq, Repr

/-- Classification outcome for one symbol: status plus the optional
numeric fields (`none` = JavaScript `null`). -/
structure Outcome where
  status : Status
  price : Option JsNumber
  changePercent : Option JsNumber
deriving DecidableEq, Repr

/-- The per-symbol classifier: lines 72–120 of `App.tsx`, applied to one
parsed JSON body.  Mirrors the source's control flow, including the
JavaScript evaluation order of property accesses (so a `null` body
throws at `data.Note`) and the `TypeError` thrown by
`(x || "0").replace` when the change-percent field is truthy but not a
string. -/
def classifyBody (data : Json) : Except Thrown Outcome :=
  match getProp data "Note" with
  | .error t => .error t
  | .ok note =>
    if isStringV note then .ok ⟨.rateLimited, none, none⟩
    else
      match getProp data "Information" with
      | .error t => .error t
      | .ok info =>
        if isStringV info then .ok ⟨.rateLimited, none, none⟩
        else
          match getProp data "Error Message" with
          | .error t => .error t
          | .ok errMsg =>
            if truthy errMsg then .ok ⟨.error, none, none⟩
            else
              match getProp data "Global Quote" with
              | .error t => .error t
              | .ok quoteV =>
                let looksEmpty := !truthy quoteV && keysLength data == 0
                match quoteV with
                | none =>
                  .ok ⟨if looksEmpty then .rateLimited else .noData, none, none⟩
                | some quote =>
                  if truthy (some quote) then
                    match getProp quote "05. price" with
                    | .error t => .error t
                    | .ok priceV =>
                      if truthy priceV then
                        match getProp quote "10. change percent" with
                        | .error t => .error t
                        | .ok changeV =>
                          if truthy changeV then
                            match changeV with
                            | some (.str s) =>
                              .ok ⟨.ok, some (parseFloatV priceV),
                                some (parseFloatStr (replacePercent s))⟩
                            | _ => .error (.errObj "replace is not a function")
                          else
                            .ok ⟨.ok, some (parseFloatV priceV),
                              some (parseFloatStr "0")⟩
                      else
                        .ok ⟨if looksEmpty then .rateLimited else .noData, none, none⟩
                  else
                    .ok ⟨if looksEmpty then .rateLimited else .noData, none, none⟩

/-- One displayed row (`StockRow` in the source); `none` models
JavaScript `null` for the numeric fields. -/
structure StockRow where
  symbol : String
  price : Option JsNumber
  changePercent : Option JsNumber
  status : Status
deriving DecidableEq, Repr

/-- JavaScript `str.split(",")` on the character list: the list of
comma-separated pieces; the empty string yields one empty piece. -/
def splitComma : List Char → List (List Char)
  | [] => [[]]
  | c :: rest =>
    match splitComma rest with
    | [] => [[c]]
    | piece :: pieces =>
      if c = ',' then [] :: piece :: pieces else (c :: piece) :: pieces

/-- JavaScript `str.trim()`: strip leading and trailing whitespace. -/
def jsTrim (cs : List Char) : List Char :=
  ((cs.dropWhile Char.isWhitespace).reverse.dropWhile Char.isWhitespace).reverse

/-- JavaScript `str.toUpperCase()` for the ASCII range exercised by
ticker symbols. -/
def jsToUpper (cs : List Char) : List Char :=
  cs.map Char.toUpper

/-- The symbol normalizer (`parseSymbols`): split the free-text input on
commas, trim and uppercase each piece, drop empty pieces
(`filter(Boolean)` — a string is falsy exactly when empty). -/
def parseSymbols (symbolsInput : String) : List String :=
  (((splitComma symbolsInput.data).map (fun cs => jsToUpper (jsTrim cs))).filter
    (fun cs => !cs.isEmpty)).map String.mk

/-- Result of one symbol's `fetch(url)` call: the promise rejects with a
thrown value, or resolves to a response with an `ok` flag and a body
whose `res.json()` either throws (unparseable) or yields a `Json`
value. -/
inductive HttpResult where
  | reject (t : Thrown)
  | resp (ok : Bool) (body : Except Thrown Json)

/-- One iteration of the fetch loop for one symbol: a rejected fetch
propagates its thrown value; a non-`ok` response yields an `error` row
without touching the body; an `ok` response has its body parsed and
classified (either of which may throw). -/
def fetchStep (symbol : String) (r : HttpResult) : Except Thrown StockRow :=
  match r with
  | .reject t => .error t
  | .resp false _ => .ok ⟨symbol, none, none, .error⟩
  | .resp true (.error t) => .error t
  | .resp true (.ok body) =>
    match classifyBody body with
    | .error t => .error t
    | .ok o => .ok ⟨symbol, o.price, o.changePercent, o.status⟩

/-- The `for … of` loop of `fetchStocks`: requests are issued
sequentially, the environment `env` giving the result of the `i`-th
request; the first thrown value aborts the remaining iterations and
discards the rows accumulated so far (control jumps to `catch`). -/
def runLoop (env : Nat → HttpResult) : List String → Nat → Except Thrown (List StockRow)
  | [], _ => .ok []
  | symbol :: rest, i =>
    match fetchStep symbol (env i) with
    | .error t => .error t
    | .ok row =>
      match runLoop env rest (i + 1) with
      | .error t => .error t
      | .ok rows => .ok (row :: rows)

/-- The view-model state touched by a refresh cycle.  `lastUpdated`
models the `Date` timestamp as a tick value. -/
structure AppState where
  rows : List StockRow
  loading : Bool
  error : Option String
  lastUpdated : Option Nat
deriving DecidableEq, Repr

/-- The banner message derived from a thrown value:
`err instanceof Error ? err.message : "Unexpected error"`. -/
def messageOf (t : Thrown) : String :=
  match t with
  | .errObj msg => msg
  | .nonErrorValue => "Unexpected error"

/-- One refresh cycle (`fetchStocks`): normalize the input; an empty
symbol list returns before any state change or network call; otherwise
set `loading := true`, `error := null`, run the loop, and either commit
the rows and timestamp or surface the thrown value as the banner
message; `finally` clears `loading` on both paths. -/
def fetchStocks (env : Nat → HttpResult) (now : Nat) (symbolsInput : String)
    (s : AppState) : AppState :=
  let symbols := parseSymbols symbolsInput
  if symbols.isEmpty then s
  else
    let s1 : AppState := { s with loading := true, error := none }
    match runLoop env symbols 0 with
    | .ok results =>
      { s1 with rows := results, lastUpdated := some now, loading := false }
    | .error t =>
      { s1 with error := some (messageOf t), loading := false }

/-- The three sortable columns. -/
inductive SortKey where
  | symbol
  | price
  | changePercent
deriving DecidableEq, Repr

/-- Sort directions. -/
inductive SortDir where
  | asc
  | desc
deriving DecidableEq, Repr

/-- Direction flip performed by `setSortDir(prev => prev === "asc" ? "desc" : "asc")`. -/
def SortDir.flip (d : SortDir) : SortDir :=
  match d with
  | .asc => .desc
  | .desc => .asc

/-- The sort-control state (`sortKey`, `sortDir`). -/
structure SortState where
  sortKey : SortKey
  sortDir : SortDir
deriving DecidableEq, Repr

/-- The sort toggle `handleSort`: clicking the active column flips the direction;
clicking a new column selects it with ascending direction. -/
def handleSort (key : SortKey) (s : SortState) : SortState :=
  if key = s.sortKey then { s with sortDir := s.sortDir.flip }
  else { sortKey := key, sortDir := .asc }

/-- JavaScript `<` on two numbers, after `null` has been coerced to `+0`
by the abstract relational comparison; any comparison with NaN is
false. -/
def jsNumLt (a b : JsNumber) : Bool :=
  match a, b with
  | .nan, _ => false
  | _, .nan => false
  | .val p, .val q => decide (p < q)

/-- Numeric view of a row field in a relational comparison: JavaScript
coerces `null` to `+0`. -/
def coerceNum (v : Option JsNumber) : JsNumber :=
  match v with
  | none => .val 0
  | some x => x

/-- JavaScript `a[sortKey] < b[sortKey]`: `symbol` compares as strings
(code-unit lexicographic), the numeric keys compare with `null` coerced
to `+0`. -/
def keyLt (key : SortKey) (a b : StockRow) : Bool :=
  match key with
  | .symbol => decide (a.symbol < b.symbol)
  | .price => jsNumLt (coerceNum a.price) (coerceNum b.price)
  | .changePercent => jsNumLt (coerceNum a.changePercent) (coerceNum b.changePercent)

/-- The comparator passed to `Array.prototype.sort`: `-dir` when
`a[sortKey] < b[sortKey]`, `dir` when `a[sortKey] > b[sortKey]`
(JavaScript `x > y` holds exactly when `y < x` for these operand
types), else 0, with `dir = 1` for ascending and `-1` for
descending. -/
def rowCmp (key : SortKey) (d : SortDir) (a b : StockRow) : Int :=
  let dir : Int := match d with | .asc => 1 | .desc => -1
  if keyLt key a b then -dir
  else if keyLt key b a then dir
  else 0

/-- Stable insertion of `x` in front of the first element `y` with
`le x y`. -/
def insertLe (le : StockRow → StockRow → Bool) (x : StockRow) :
    List StockRow → List StockRow
  | [] => [x]
  | y :: ys => if le x y then x :: y :: ys else y :: insertLe le x ys

/-- A stable sort by the boolean relation `le a b := cmp a b ≤ 0`,
modelling ECMAScript `Array.prototype.sort`, which is specified to be
stable and, for consistent comparators, to produce the
comparator-sorted order — which together determine the output this
function produces. -/
def stableSortBy (le : StockRow → StockRow → Bool) : List StockRow → List StockRow
  | [] => []
  | x :: xs => insertLe le x (stableSortBy le xs)

/-- The numeric field a numeric sort key reads from a row (`none` for
the string key, which has no numeric field). -/
def numField (key : SortKey) (r : StockRow) : Option JsNumber :=
  match key with
  | .symbol => none
  | .price => r.price
  | .changePercent => r.changePercent

/-- The boolean "sorts no later than" relation induced by the
comparator: `a` may precede `b` when the comparator does not order `b`
strictly before `a`. -/
def rowLe (key : SortKey) (d : SortDir) (a b : StockRow) : Bool :=
  rowCmp key d a b ≤ 0

/-- The sorter `sortedRows`, i.e. `[...rows].sort(comparator)` — the displayed row
order; the input list is left untouched (sorting happens on a copy,
which in this pure model is the returned list). -/
def sortedRows (rows : List StockRow) (key : SortKey) (d : SortDir) : List StockRow :=
  stableSortBy (rowLe key d) rows

/-! ## The spec's classifier rules

For the refinement claim about the classifier, the following
definitions transcribe §4.2 of the spec — an ordered, first-match rule
list, total over all bodies (the spec states no exception is thrown).
Where the spec's wording is open to interpretation ("contains an
explicit provider error field", "quote payload is absent or missing its
price field"), we take presence-as-JavaScript-truthiness, the reading
the source realizes; the divergences recorded against the claims do not
depend on these choices. -/

/-- Field lookup as the spec describes it: a named field of the body
when the body is an object, absent otherwise (total, never throws). -/
def fieldOf (j : Json) (key : String) : Option Json :=
  match j with
  | .obj fields => lookupField fields key
  | _ => none

/-- The spec's test "the *entire* body is an empty object". -/
def isEmptyObj (j : Json) : Bool :=
  match j with
  | .obj [] => true
  | _ => false

/-- The spec's "stripping a trailing `%`" on a character list. -/
def stripTrailingPercent (cs : List Char) : List Char :=
  if cs.getLast? = some '%' then cs.dropLast else cs

/-- The spec's change-percent extraction: a decimal obtained by
stripping a trailing `%` from the field, defaulting to `0` when the
field is absent. -/
def specChange (v : Option Json) : JsNumber :=
  match v with
  | none => .val 0
  | some (.str s) => parseFloatStr (String.mk (stripTrailingPercent s.data))
  | some j => parseFloatJ j

/-- Spec section 4.2 decision order, rules 2-5 (rule 1, transport failure, is
handled before a body exists): throttling note → `rate-limited`;
provider error field → `error`; absent/missing quote payload →
`rate-limited` for an entirely empty object body, else `no-data`;
otherwise `ok` with the extracted price and change percent. -/
def specClassify (body : Json) : Outcome :=
  if isStringV (fieldOf body "Note") || isStringV (fieldOf body "Information") then
    ⟨.rateLimited, none, none⟩
  else if truthy (fieldOf body "Error Message") then
    ⟨.error, none, none⟩
  else
    let quoteV := fieldOf body "Global Quote"
    let priceV : Option Json :=
      match quoteV with
      | some q => fieldOf q "05. price"
      | none => none
    if truthy quoteV && truthy priceV then
      let changeV : Option Json :=
        match quoteV with
        | some q => fieldOf q "10. change percent"
        | none => none
      ⟨.ok, some (parseFloatV priceV), some (specChange changeV)⟩
    else if isEmptyObj body then ⟨.rateLimited, none, none⟩
    else ⟨.noData, none, none⟩

/-- Side condition under which the source's change-percent handling is
exception-free and agrees with the spec's trailing-`%` rule: the quote
payload's change-percent field is absent, or is a non-empty string
whose only `%` (if any) is its final character.  (A truthy non-string
field makes the source throw at `.replace`; an empty string makes the
source take the `"0"` default while the spec's rule would parse the
empty remainder.) -/
def changeFieldTame (fs : List (String × Json)) : Bool :=
  match lookupField fs "Global Quote" with
  | some (.obj qs) =>
    match lookupField qs "10. change percent" with
    | none => true
    | some (.str s) => decide (s ≠ "") && !(s.data.dropLast.contains '%')
    | some _ => false
  | _ => true

/-- Side condition under which the classifier cannot throw on a
non-null body: the quote payload's change-percent field, where the
`.replace` call could be reached, is absent, falsy, or a string. -/
def changeSafe (j : Json) : Bool :=
  match j with
  | .obj fs =>
    match lookupField fs "Global Quote" with
    | some (.obj qs) =>
      match lookupField qs "10. change percent" with
      | none => true
      | some v => !truthy (some v) || isStringV (some v)
    | _ => true
  | _ => true

end StockDash

namespace StockDash

/-! ## Normalizer and fetch-lifecycle theorems -/

/-- The filter-of-map formulation of the normalizer equals the
drop-empty-pieces-while-mapping formulation. -/
lemma filter_map_norm (l : List (List Char)) :
    (((l.map (fun cs => jsToUpper (jsTrim cs))).filter
        (fun cs => !cs.isEmpty)).map String.mk) =
      l.filterMap (fun cs =>
        if jsToUpper (jsTrim cs) = [] then none
        else some (String.mk (jsToUpper (jsTrim cs)))) := by
  induction l with
  | nil => rfl
  | cons a l ih =>
    simp only [List.map_cons, List.filter_cons, List.filterMap_cons]
    by_cases h : jsToUpper (jsTrim a) = []
    · simp [h, ih]
    · simp [h, ih, List.isEmpty_iff]

/-- C6: the symbol normalizer splits the input on commas, trims and
uppercases each piece and drops empty pieces, preserving input order
and duplicates; `"aapl, MSFT ,, googl"` normalizes to
`["AAPL","MSFT","GOOGL"]` and a duplicated symbol is kept twice. -/
theorem parseSymbols_correct :
    (∀ input : String, parseSymbols input =
      (splitComma input.data).filterMap (fun cs =>
        if jsToUpper (jsTrim cs) = [] then none
        else some (String.mk (jsToUpper (jsTrim cs))))) ∧
    parseSymbols "aapl, MSFT ,, googl" = ["AAPL", "MSFT", "GOOGL"] ∧
    parseSymbols "aapl, AAPL" = ["AAPL", "AAPL"] := by
  refine ⟨fun input => ?_, by decide, by decide⟩
  unfold parseSymbols
  exact filter_map_norm _

/-- C7: an input that normalizes to no symbols leaves the state exactly
as it was, and the cycle consults no response environment (no network
request is issued). -/
theorem fetchStocks_empty_guard (input : String)
    (h : parseSymbols input = []) :
    (∀ env now s, fetchStocks env now input s = s) ∧
    (∀ env env' now now' s,
      fetchStocks env now input s = fetchStocks env' now' input s) := by
  constructor
  · intro env now s
    simp [fetchStocks, h]
  · intro env env' now now' s
    simp [fetchStocks, h]

/-- Witness for C7 at the concrete input `" , ,, "`. -/
theorem fetchStocks_empty_guard_witness :
    fetchStocks (fun _ => .reject .nonErrorValue) 3 " , ,, "
      ⟨[], false, none, some 7⟩ = ⟨[], false, none, some 7⟩ :=
  (fetchStocks_empty_guard " , ,, " rfl).1 (fun _ => .reject .nonErrorValue) 3
    ⟨[], false, none, some 7⟩

/-- C4: when the loop aborts with a thrown value, the cycle surfaces
the derived message as the top-level error, keeps the previous `rows`
and `lastUpdated` (the commit never happens), and still clears
`loading`. -/
theorem fetchStocks_abort (env : Nat → HttpResult) (now : Nat)
    (input : String) (s : AppState) (t : Thrown)
    (h1 : parseSymbols input ≠ [])
    (h2 : runLoop env (parseSymbols input) 0 = .error t) :
    fetchStocks env now input s =
      { s with error := some (messageOf t), loading := false } := by
  have hne : (parseSymbols input).isEmpty = false := by
    simpa [List.isEmpty_iff] using h1
  simp [fetchStocks, hne, h2]

/-- Witness for C4: one symbol whose request rejects. -/
theorem fetchStocks_abort_witness :
    fetchStocks (fun _ => .reject (.errObj "boom")) 9 "A"
      ⟨[⟨"X", none, none, .error⟩], true, none, some 5⟩ =
      ⟨[⟨"X", none, none, .error⟩], false, some "boom", some 5⟩ :=
  fetchStocks_abort (fun _ => .reject (.errObj "boom")) 9 "A"
    ⟨[⟨"X", none, none, .error⟩], true, none, some 5⟩ (.errObj "boom")
    (by decide) rfl

/-- C8: selecting a new sort key resets the direction to ascending;
toggling the active key flips the direction without changing the
active column, so starting from a descending active column two toggles
give ascending then descending. -/
theorem handleSort_correct :
    (∀ (s : SortState) (k : SortKey), k ≠ s.sortKey →
      handleSort k s = ⟨k, .asc⟩) ∧
    (∀ (s : SortState) (k : SortKey), k = s.sortKey →
      handleSort k s = ⟨s.sortKey, s.sortDir.flip⟩) ∧
    (∀ k : SortKey, handleSort k ⟨k, .desc⟩ = ⟨k, .asc⟩ ∧
      handleSort k (handleSort k ⟨k, .desc⟩) = ⟨k, .desc⟩) := by
  refine ⟨fun s k h => ?_, fun s k h => ?_, fun k => ⟨?_, ?_⟩⟩
  · simp [handleSort, h]
  · subst h; simp [handleSort]
  · simp [handleSort, SortDir.flip]
  · simp [handleSort, SortDir.flip]

/-- Witness for C8 at concrete states. -/
theorem handleSort_correct_witness :
    handleSort .price ⟨.symbol, .desc⟩ = ⟨.price, .asc⟩ ∧
    handleSort .symbol ⟨.symbol, .asc⟩ = ⟨.symbol, .desc⟩ :=
  ⟨handleSort_correct.1 ⟨.symbol, .desc⟩ .price (by decide),
    handleSort_correct.2.1 ⟨.symbol, .asc⟩ .symbol rfl⟩

end StockDash

namespace StockDash

/-! ## Sorter lemmas -/

/-- Relation `jsNumLt` is asymmetric. -/
lemma jsNumLt_asymm {a b : JsNumber} (h : jsNumLt a b = true) :
    jsNumLt b a = false := by
  cases a with
  | nan => simp [jsNumLt] at h
  | val p =>
    cases b with
    | nan => simp [jsNumLt] at h
    | val q =>
      simp only [jsNumLt, decide_eq_true_eq] at h
      simp [jsNumLt, not_lt.mpr (le_of_lt h)]

/-- Relation `jsNumLt` is transitive (a true comparison forces both operands
away from NaN). -/
lemma jsNumLt_trans {a b c : JsNumber} (h1 : jsNumLt a b = true)
    (h2 : jsNumLt b c = true) : jsNumLt a c = true := by
  cases a with
  | nan => simp [jsNumLt] at h1
  | val p =>
    cases b with
    | nan => simp [jsNumLt] at h1
    | val q =>
      cases c with
      | nan => simp [jsNumLt] at h2
      | val r =>
        simp only [jsNumLt, decide_eq_true_eq] at h1 h2 ⊢
        exact lt_trans h1 h2

/-- Relation `keyLt` is asymmetric for every key. -/
lemma keyLt_asymm {k : SortKey} {a b : StockRow} (h : keyLt k a b = true) :
    keyLt k b a = false := by
  cases k with
  | symbol =>
    simp only [keyLt, decide_eq_true_eq] at h
    simp [keyLt, not_lt.mpr (le_of_lt h)]
  | price => exact jsNumLt_asymm h
  | changePercent => exact jsNumLt_asymm h

/-- Relation `keyLt` is transitive for every key. -/
lemma keyLt_trans {k : SortKey} {a b c : StockRow} (h1 : keyLt k a b = true)
    (h2 : keyLt k b c = true) : keyLt k a c = true := by
  cases k with
  | symbol =>
    simp only [keyLt, decide_eq_true_eq] at h1 h2 ⊢
    exact lt_trans h1 h2
  | price => exact jsNumLt_trans h1 h2
  | changePercent => exact jsNumLt_trans h1 h2

/-- Swapping the arguments negates the comparator. -/
lemma rowCmp_swap (k : SortKey) (d : SortDir) (a b : StockRow) :
    rowCmp k d b a = -(rowCmp k d a b) := by
  unfold rowCmp
  by_cases hab : keyLt k a b = true
  · have hba := keyLt_asymm hab
    cases d <;> simp [hab, hba]
  · rw [Bool.not_eq_true] at hab
    by_cases hba : keyLt k b a = true
    · cases d <;> simp [hab, hba]
    · rw [Bool.not_eq_true] at hba
      cases d <;> simp [hab, hba]

/-- Flipping the direction negates the comparator. -/
lemma rowCmp_flip (k : SortKey) (d : SortDir) (a b : StockRow) :
    rowCmp k d.flip a b = -(rowCmp k d a b) := by
  unfold rowCmp SortDir.flip
  cases d <;> by_cases hab : keyLt k a b = true <;>
    by_cases hba : keyLt k b a = true <;> simp [hab, hba]

/-- The comparator orders strictly exactly along `keyLt` (for
descending, along the reversed `keyLt`). -/
lemma rowCmp_neg_iff (k : SortKey) (d : SortDir) (a b : StockRow) :
    rowCmp k d a b < 0 ↔
      keyLt k (if d = .asc then a else b) (if d = .asc then b else a) = true := by
  unfold rowCmp
  cases d with
  | asc =>
    by_cases hab : keyLt k a b = true
    · simp [hab]
    · rw [Bool.not_eq_true] at hab
      by_cases hba : keyLt k b a = true <;> simp [hab, *]
  | desc =>
    by_cases hab : keyLt k a b = true
    · simp [hab, keyLt_asymm hab]
    · rw [Bool.not_eq_true] at hab
      by_cases hba : keyLt k b a = true <;> simp [hab, *]

/-- The comparator ties exactly when `keyLt` holds in neither
direction. -/
lemma rowCmp_zero_iff (k : SortKey) (d : SortDir) (a b : StockRow) :
    rowCmp k d a b = 0 ↔ (keyLt k a b = false ∧ keyLt k b a = false) := by
  unfold rowCmp
  cases d <;>
    by_cases hab : keyLt k a b = true <;>
      by_cases hba : keyLt k b a = true <;>
        simp_all [Bool.not_eq_true]

/-- Strict comparator orderings compose. -/
lemma rowCmp_lt_trans {k : SortKey} {d : SortDir} {a b c : StockRow}
    (h1 : rowCmp k d a b < 0) (h2 : rowCmp k d b c < 0) :
    rowCmp k d a c < 0 := by
  rw [rowCmp_neg_iff] at h1 h2 ⊢
  cases d with
  | asc => simpa using keyLt_trans (by simpa using h1) (by simpa using h2)
  | desc => simpa using keyLt_trans (by simpa using h2) (by simpa using h1)

/-- Relation `rowLe` is total. -/
lemma rowLe_total (k : SortKey) (d : SortDir) (a b : StockRow) :
    rowLe k d a b = true ∨ rowLe k d b a = true := by
  simp only [rowLe, decide_eq_true_eq]
  have := rowCmp_swap k d a b
  omega

/-- Inserting preserves the permutation class. -/
lemma insertLe_perm (le : StockRow → StockRow → Bool) (x : StockRow)
    (l : List StockRow) : (insertLe le x l).Perm (x :: l) := by
  induction l with
  | nil => exact List.Perm.refl _
  | cons y ys ih =>
    unfold insertLe
    by_cases h : le x y = true
    · simp [h]
    · rw [Bool.not_eq_true] at h
      simp only [h]
      exact (ih.cons y).trans (List.Perm.swap x y ys)

/-- The stable sort is a permutation of its input. -/
lemma stableSortBy_perm (le : StockRow → StockRow → Bool)
    (l : List StockRow) : (stableSortBy le l).Perm l := by
  induction l with
  | nil => exact List.Perm.refl _
  | cons x xs ih =>
    unfold stableSortBy
    exact (insertLe_perm le x (stableSortBy le xs)).trans (ih.cons x)

/-- Inserting into an adjacent-sorted list keeps it adjacent-sorted,
given totality. -/
lemma chain'_insertLe (le : StockRow → StockRow → Bool)
    (htot : ∀ a b, le a b = true ∨ le b a = true) (x : StockRow)
    (l : List StockRow) (h : List.Chain' (fun a b => le a b = true) l) :
    List.Chain' (fun a b => le a b = true) (insertLe le x l) := by
  induction l with
  | nil => simp [insertLe]
  | cons y ys ih =>
    unfold insertLe
    by_cases hxy : le x y = true
    · simp only [hxy, if_true]
      exact h.cons hxy
    · rw [Bool.not_eq_true] at hxy
      simp only [hxy, Bool.false_eq_true, if_false]
      rcases List.chain'_cons'.mp h with ⟨hhead, htail⟩
      refine List.chain'_cons'.mpr ⟨?_, ih htail⟩
      intro z hz
      cases ys with
      | nil =>
        simp [insertLe] at hz
        subst hz
        rcases htot x y with hxy' | hyx
        · rw [hxy'] at hxy
          exact Bool.noConfusion hxy
        · exact hyx
      | cons w ws =>
        unfold insertLe at hz
        by_cases hxw : le x w = true
        · simp only [hxw, if_true, List.head?_cons, Option.mem_def,
            Option.some.injEq] at hz
          subst hz
          rcases htot x y with hxy' | hyx
          · rw [hxy'] at hxy
            exact Bool.noConfusion hxy
          · exact hyx
        · rw [Bool.not_eq_true] at hxw
          simp only [hxw, Bool.false_eq_true, if_false, List.head?_cons,
            Option.mem_def, Option.some.injEq] at hz
          subst hz
          exact hhead w rfl

/-- The stable sort's output is adjacent-sorted, given totality. -/
lemma chain'_stableSortBy (le : StockRow → StockRow → Bool)
    (htot : ∀ a b, le a b = true ∨ le b a = true) (l : List StockRow) :
    List.Chain' (fun a b => le a b = true) (stableSortBy le l) := by
  induction l with
  | nil => simp [stableSortBy]
  | cons x xs ih =>
    unfold stableSortBy
    exact chain'_insertLe le htot x _ ih

/-- An adjacent-sorted list is a fixed point of the stable sort. -/
lemma stableSortBy_of_chain' (le : StockRow → StockRow → Bool)
    (l : List StockRow) (h : List.Chain' (fun a b => le a b = true) l) :
    stableSortBy le l = l := by
  induction l with
  | nil => rfl
  | cons x xs ih =>
    rcases List.chain'_cons'.mp h with ⟨hhead, htail⟩
    unfold stableSortBy
    rw [ih htail]
    cases xs with
    | nil => rfl
    | cons y ys =>
      unfold insertLe
      rw [hhead y rfl]
      simp

/-- Adjacent-sortedness upgrades to pairwise sortedness when the
relation is transitive on the list's elements. -/
lemma pairwise_of_chain' (le : StockRow → StockRow → Bool)
    (l : List StockRow) (h : List.Chain' (fun a b => le a b = true) l)
    (htrans : ∀ a ∈ l, ∀ b ∈ l, ∀ c ∈ l,
      le a b = true → le b c = true → le a c = true) :
    List.Pairwise (fun a b => le a b = true) l := by
  induction l with
  | nil => exact List.Pairwise.nil
  | cons x xs ih =>
    rcases List.chain'_cons'.mp h with ⟨hhead, htail⟩
    have hxs : List.Pairwise (fun a b => le a b = true) xs :=
      ih htail (fun a ha b hb c hc => htrans a (List.mem_cons_of_mem _ ha)
        b (List.mem_cons_of_mem _ hb) c (List.mem_cons_of_mem _ hc))
    refine List.pairwise_cons.mpr ⟨?_, hxs⟩
    intro b hb
    cases xs with
    | nil => simp at hb
    | cons y ys =>
      have hxy : le x y = true := hhead y rfl
      rcases List.mem_cons.mp hb with rfl | hb'
      · exact hxy
      · have hyb : le y b = true := (List.pairwise_cons.mp hxs).1 b hb'
        exact htrans x (List.mem_cons_self _ _)
          y (List.mem_cons_of_mem _ (List.mem_cons_self _ _))
          b (List.mem_cons_of_mem _ hb) hxy hyb

/-- Two pairwise-sorted lists over the same multiset agree when the
relation is antisymmetric on the elements. -/
lemma eq_of_perm_of_pairwise (le : StockRow → StockRow → Bool) :
    ∀ (l₁ l₂ : List StockRow), l₁.Perm l₂ →
    List.Pairwise (fun a b => le a b = true) l₁ →
    List.Pairwise (fun a b => le a b = true) l₂ →
    (∀ a ∈ l₁, ∀ b ∈ l₁, le a b = true → le b a = true → a = b) →
    l₁ = l₂
  | [], l₂, p, _, _, _ => (p.symm.eq_nil).symm
  | x :: t₁, [], p, _, _, _ => absurd p.eq_nil (by simp)
  | x :: t₁, y :: t₂, p, h₁, h₂, hanti => by
    have hxy : x = y := by
      by_cases hxy : x = y
      · exact hxy
      · have hx2 : x ∈ y :: t₂ := p.subset (List.mem_cons_self _ _)
        have hy1 : y ∈ x :: t₁ := p.symm.subset (List.mem_cons_self _ _)
        have hxt2 : x ∈ t₂ := by
          rcases List.mem_cons.mp hx2 with h | h
          · exact absurd h hxy
          · exact h
        have hyt1 : y ∈ t₁ := by
          rcases List.mem_cons.mp hy1 with h | h
          · exact absurd h.symm hxy
          · exact h
        have hab : le x y = true := (List.pairwise_cons.mp h₁).1 y hyt1
        have hba : le y x = true := (List.pairwise_cons.mp h₂).1 x hxt2
        exact hanti x (List.mem_cons_self _ _) y hy1 hab hba
    subst hxy
    have pt : t₁.Perm t₂ := p.cons_inv
    have ht := eq_of_perm_of_pairwise le t₁ t₂ pt
      (List.pairwise_cons.mp h₁).2 (List.pairwise_cons.mp h₂).2
      (fun a ha b hb => hanti a (List.mem_cons_of_mem _ ha)
        b (List.mem_cons_of_mem _ hb))
    rw [ht]

/-- Relation `rowLe` spelt out. -/
lemma rowLe_iff (k : SortKey) (d : SortDir) (a b : StockRow) :
    rowLe k d a b = true ↔ rowCmp k d a b ≤ 0 := by
  simp [rowLe]

/-- A comparator tie is direction-independent. -/
lemma rowCmp_zero_dir (k : SortKey) (d : SortDir) (a b : StockRow) :
    rowCmp k d a b = 0 ↔ rowCmp k .asc a b = 0 := by
  rw [rowCmp_zero_iff, rowCmp_zero_iff]

/-- C9: the row sorter is idempotent — re-sorting its own output by the
same key and direction returns it unchanged — and, for rows whose key
values are pairwise distinct under the comparator (no two distinct rows
tie), sorting with one direction and then the flipped direction twice
returns the rows to the order the first sort gave them.  The sorter is
a pure function on an immutable list, so the input list itself is
never modified. -/
theorem sortedRows_laws :
    (∀ (rows : List StockRow) (k : SortKey) (d : SortDir),
      sortedRows (sortedRows rows k d) k d = sortedRows rows k d) ∧
    (∀ (rows : List StockRow) (k : SortKey) (d : SortDir),
      (∀ a ∈ rows, ∀ b ∈ rows, rowCmp k .asc a b = 0 → a = b) →
      sortedRows (sortedRows (sortedRows rows k d) k d.flip) k d =
        sortedRows rows k d) := by
  constructor
  · intro rows k d
    simp only [sortedRows]
    exact stableSortBy_of_chain' (rowLe k d) _
      (chain'_stableSortBy (rowLe k d) (rowLe_total k d) rows)
  · intro rows k d hnt
    simp only [sortedRows]
    have htot := rowLe_total k d
    have hperm1 : (stableSortBy (rowLe k d) rows).Perm rows :=
      stableSortBy_perm _ _
    have hperm2 : (stableSortBy (rowLe k d.flip)
        (stableSortBy (rowLe k d) rows)).Perm (stableSortBy (rowLe k d) rows) :=
      stableSortBy_perm _ _
    have hperm3 : (stableSortBy (rowLe k d)
        (stableSortBy (rowLe k d.flip) (stableSortBy (rowLe k d) rows))).Perm
        (stableSortBy (rowLe k d.flip) (stableSortBy (rowLe k d) rows)) :=
      stableSortBy_perm _ _
    have hmem1 : ∀ a ∈ stableSortBy (rowLe k d) rows, a ∈ rows :=
      fun a ha => hperm1.subset ha
    have hmem3 : ∀ a ∈ stableSortBy (rowLe k d)
        (stableSortBy (rowLe k d.flip) (stableSortBy (rowLe k d) rows)),
          a ∈ rows :=
      fun a ha => hperm1.subset (hperm2.subset (hperm3.subset ha))
    have hnt' : ∀ a ∈ rows, ∀ b ∈ rows, rowCmp k d a b = 0 → a = b := by
      intro a ha b hb h0
      exact hnt a ha b hb ((rowCmp_zero_dir k d a b).mp h0)
    have hanti : ∀ a ∈ rows, ∀ b ∈ rows,
        rowLe k d a b = true → rowLe k d b a = true → a = b := by
      intro a ha b hb hab hba
      rw [rowLe_iff] at hab hba
      have hsw := rowCmp_swap k d a b
      exact hnt' a ha b hb (by omega)
    have htr : ∀ a ∈ rows, ∀ b ∈ rows, ∀ c ∈ rows,
        rowLe k d a b = true → rowLe k d b c = true →
          rowLe k d a c = true := by
      intro a ha b hb c hc hab hbc
      rw [rowLe_iff] at hab hbc ⊢
      rcases lt_or_eq_of_le hab with hab' | hab'
      · rcases lt_or_eq_of_le hbc with hbc' | hbc'
        · exact le_of_lt (rowCmp_lt_trans hab' hbc')
        · have : b = c := hnt' b hb c hc hbc'
          subst this
          exact hab
      · have : a = b := hnt' a ha b hb hab'
        subst this
        exact hbc
    have hp3 : List.Pairwise (fun a b => rowLe k d a b = true)
        (stableSortBy (rowLe k d)
          (stableSortBy (rowLe k d.flip) (stableSortBy (rowLe k d) rows))) :=
      pairwise_of_chain' _ _ (chain'_stableSortBy _ htot _)
        (fun a ha b hb c hc => htr a (hmem3 a ha) b (hmem3 b hb) c (hmem3 c hc))
    have hp1 : List.Pairwise (fun a b => rowLe k d a b = true)
        (stableSortBy (rowLe k d) rows) :=
      pairwise_of_chain' _ _ (chain'_stableSortBy _ htot _)
        (fun a ha b hb c hc => htr a (hmem1 a ha) b (hmem1 b hb) c (hmem1 c hc))
    exact eq_of_perm_of_pairwise (rowLe k d) _ _ (hperm3.trans hperm2) hp3 hp1
      (fun a ha b hb => hanti a (hmem3 a ha) b (hmem3 b hb))

/-- Witness for C9's double-flip law at three rows with distinct
prices. -/
theorem sortedRows_laws_witness :
    sortedRows (sortedRows (sortedRows
      [⟨"A", some (.val 3), none, .ok⟩, ⟨"B", some (.val 1), none, .ok⟩,
        ⟨"C", some (.val 2), none, .ok⟩] .price .asc) .price SortDir.asc.flip)
      .price .asc =
      sortedRows
        [⟨"A", some (.val 3), none, .ok⟩, ⟨"B", some (.val 1), none, .ok⟩,
          ⟨"C", some (.val 2), none, .ok⟩] .price .asc :=
  sortedRows_laws.2
    [⟨"A", some (.val 3), none, .ok⟩, ⟨"B", some (.val 1), none, .ok⟩,
      ⟨"C", some (.val 2), none, .ok⟩] .price .asc (by decide)

/-- C10: with a numeric sort key, a `null` field compares as the number
0 — strictly before positive values and after negative values in
ascending order, reversed exactly by the descending direction, and
tying with a field of exactly 0 (ties are never reordered: a tying
adjacent pair keeps its input order). -/
theorem rowCmp_null_as_zero (k : SortKey) (hk : k ≠ .symbol)
    (a b : StockRow) (hnull : numField k a = none) :
    (∀ q : ℚ, numField k b = some (.val q) →
      (0 < q → rowCmp k .asc a b = -1 ∧ rowCmp k .desc a b = 1) ∧
      (q < 0 → rowCmp k .asc a b = 1 ∧ rowCmp k .desc a b = -1) ∧
      (q = 0 → ∀ d, rowCmp k d a b = 0)) ∧
    (numField k b = none → ∀ d, rowCmp k d a b = 0) ∧
    (∀ d, rowCmp k d.flip a b = -(rowCmp k d a b)) ∧
    (∀ d, rowCmp k d a b = 0 → sortedRows [a, b] k d = [a, b]) := by
  refine ⟨?_, ?_, fun d => rowCmp_flip k d a b, fun d h0 => ?_⟩
  · intro q hq
    refine ⟨fun hpos => ?_, fun hneg => ?_, fun hzero => ?_⟩
    · cases k with
      | symbol => exact absurd rfl hk
      | price =>
        simp only [numField] at hnull hq
        constructor <;>
          simp [rowCmp, keyLt, coerceNum, jsNumLt, hnull, hq, hpos,
            not_lt.mpr (le_of_lt hpos)]
      | changePercent =>
        simp only [numField] at hnull hq
        constructor <;>
          simp [rowCmp, keyLt, coerceNum, jsNumLt, hnull, hq, hpos,
            not_lt.mpr (le_of_lt hpos)]
    · cases k with
      | symbol => exact absurd rfl hk
      | price =>
        simp only [numField] at hnull hq
        constructor <;>
          simp [rowCmp, keyLt, coerceNum, jsNumLt, hnull, hq, hneg,
            not_lt.mpr (le_of_lt hneg)]
      | changePercent =>
        simp only [numField] at hnull hq
        constructor <;>
          simp [rowCmp, keyLt, coerceNum, jsNumLt, hnull, hq, hneg,
            not_lt.mpr (le_of_lt hneg)]
    · subst hzero
      intro d
      cases k with
      | symbol => exact absurd rfl hk
      | price =>
        simp only [numField] at hnull hq
        cases d <;> simp [rowCmp, keyLt, coerceNum, jsNumLt, hnull, hq]
      | changePercent =>
        simp only [numField] at hnull hq
        cases d <;> simp [rowCmp, keyLt, coerceNum, jsNumLt, hnull, hq]
  · intro hb d
    cases k with
    | symbol => exact absurd rfl hk
    | price =>
      simp only [numField] at hnull hb
      cases d <;> simp [rowCmp, keyLt, coerceNum, jsNumLt, hnull, hb]
    | changePercent =>
      simp only [numField] at hnull hb
      cases d <;> simp [rowCmp, keyLt, coerceNum, jsNumLt, hnull, hb]
  · have hle : rowLe k d a b = true := by
      rw [rowLe_iff, h0]
    simp [sortedRows, stableSortBy, insertLe, hle]

/-- Witness for C10 at a null-price row against a positive-price
row. -/
theorem rowCmp_null_as_zero_witness :
    rowCmp .price .asc ⟨"A", none, none, .error⟩
        ⟨"B", some (.val 1), none, .ok⟩ = -1 ∧
      rowCmp .price .desc ⟨"A", none, none, .error⟩
        ⟨"B", some (.val 1), none, .ok⟩ = 1 :=
  ((rowCmp_null_as_zero .price (by decide) ⟨"A", none, none, .error⟩
    ⟨"B", some (.val 1), none, .ok⟩ rfl).1 1 rfl).1 (by norm_num)

end StockDash

namespace StockDash

/-! ## Classifier and fetch-loop theorems -/

/-- Every successful classification is either an `ok` outcome with both
numeric fields present, or a non-`ok` outcome with both absent. -/
lemma classifyBody_shape (j : Json) (o : Outcome)
    (h : classifyBody j = .ok o) :
    (o.status = .ok ∧ (∃ p, o.price = some p) ∧ ∃ c, o.changePercent = some c) ∨
      (o.status ≠ .ok ∧ o.price = none ∧ o.changePercent = none) := by
  unfold classifyBody at h
  repeat' split at h
  all_goals try (exact Except.noConfusion h)
  all_goals (injection h with h; subst h)
  all_goals
    first
      | (left; exact ⟨rfl, ⟨_, rfl⟩, ⟨_, rfl⟩⟩)
      | (right; refine ⟨?_, rfl, rfl⟩; (try split) <;> decide)

/-- Constructor-wise evaluation of `truthy`. -/
lemma truthy_none : truthy none = false := rfl

/-- Value `null` is falsy. -/
lemma truthy_null : truthy (some .null) = false := rfl

/-- A boolean's truthiness is itself. -/
lemma truthy_bool (b : Bool) : truthy (some (.bool b)) = b := rfl

/-- A number is truthy unless zero (NaN cannot appear in parsed
JSON). -/
lemma truthy_num (q : ℚ) : truthy (some (.num q)) = decide (q ≠ 0) := rfl

/-- A string is truthy unless empty. -/
lemma truthy_str (s : String) : truthy (some (.str s)) = decide (s ≠ "") := rfl

/-- Arrays are truthy. -/
lemma truthy_arr (es : List Json) : truthy (some (.arr es)) = true := rfl

/-- Objects are truthy. -/
lemma truthy_obj (fs : List (String × Json)) :
    truthy (some (.obj fs)) = true := rfl

/-- Property access on an object is field lookup. -/
lemma getProp_obj (fs : List (String × Json)) (k : String) :
    getProp (.obj fs) k = .ok (lookupField fs k) := rfl

/-- Property access on a boolean yields `undefined`. -/
lemma getProp_bool (b : Bool) (k : String) :
    getProp (.bool b) k = .ok none := rfl

/-- Property access on a number yields `undefined`. -/
lemma getProp_num (q : ℚ) (k : String) : getProp (.num q) k = .ok none := rfl

/-- Property access on a string yields `undefined` for quote keys. -/
lemma getProp_str (s : String) (k : String) :
    getProp (.str s) k = .ok none := rfl

/-- Property access on an array yields `undefined` for quote keys. -/
lemma getProp_arr (es : List Json) (k : String) :
    getProp (.arr es) k = .ok none := rfl

/-- Every row appended by one loop iteration satisfies the row
invariant. -/
lemma fetchStep_shape (sym : String) (r : HttpResult) (row : StockRow)
    (h : fetchStep sym r = .ok row) :
    row.price.isSome = row.changePercent.isSome ∧
      (row.status ≠ .ok → row.price = none ∧ row.changePercent = none) := by
  cases r with
  | reject t => exact Except.noConfusion h
  | resp ok body =>
    cases ok with
    | false =>
      simp only [fetchStep] at h
      injection h with h
      subst h
      exact ⟨rfl, fun _ => ⟨rfl, rfl⟩⟩
    | true =>
      cases body with
      | error t => exact Except.noConfusion h
      | ok j =>
        simp only [fetchStep] at h
        cases hc : classifyBody j with
        | error t => rw [hc] at h; exact Except.noConfusion h
        | ok o =>
          rw [hc] at h
          injection h with h
          subst h
          rcases classifyBody_shape j o hc with ⟨hs, ⟨p, hp⟩, ⟨c, hcc⟩⟩ |
            ⟨hs, hp, hcc⟩
          · exact ⟨by simp [hp, hcc], fun hne => absurd hs hne⟩
          · exact ⟨by simp [hp, hcc], fun _ => ⟨hp, hcc⟩⟩

/-- C5: every row in a completed fetch loop's output has `price` and
`changePercent` both set or both unset, and both unset whenever the
status is not `ok`. -/
theorem runLoop_rows_invariant :
    ∀ (env : Nat → HttpResult) (syms : List String) (i : Nat)
      (rows : List StockRow), runLoop env syms i = .ok rows →
      ∀ r ∈ rows, r.price.isSome = r.changePercent.isSome ∧
        (r.status ≠ .ok → r.price = none ∧ r.changePercent = none) := by
  intro env syms
  induction syms with
  | nil =>
    intro i rows h r hr
    simp only [runLoop] at h
    injection h with h
    subst h
    simp at hr
  | cons s rest ih =>
    intro i rows h r hr
    simp only [runLoop] at h
    cases hstep : fetchStep s (env i) with
    | error t => rw [hstep] at h; exact Except.noConfusion h
    | ok row =>
      rw [hstep] at h
      cases hrest : runLoop env rest (i + 1) with
      | error t => rw [hrest] at h; exact Except.noConfusion h
      | ok rows' =>
        rw [hrest] at h
        injection h with h
        subst h
        rcases List.mem_cons.mp hr with rfl | hr'
        · exact fetchStep_shape s (env i) r hstep
        · exact ih (i + 1) rows' hrest r hr'

/-- Witness for C5 on a one-symbol loop with a successful quote. -/
theorem runLoop_rows_invariant_witness :
    (⟨"A", some (.val (mkRat 2469 20)), some (.val (mkRat 123 100)), .ok⟩ :
        StockRow).price.isSome =
      (⟨"A", some (.val (mkRat 2469 20)), some (.val (mkRat 123 100)), .ok⟩ :
        StockRow).changePercent.isSome ∧
      ((⟨"A", some (.val (mkRat 2469 20)), some (.val (mkRat 123 100)), .ok⟩ :
          StockRow).status ≠ .ok →
        (⟨"A", some (.val (mkRat 2469 20)), some (.val (mkRat 123 100)), .ok⟩ :
            StockRow).price = none ∧
          (⟨"A", some (.val (mkRat 2469 20)), some (.val (mkRat 123 100)), .ok⟩ :
              StockRow).changePercent = none) :=
  runLoop_rows_invariant
    (fun _ => .resp true (.ok (.obj [("Global Quote",
      .obj [("05. price", .str "123.45"),
        ("10. change percent", .str "1.23%")])])))
    ["A"] 0 [⟨"A", some (.val (mkRat 2469 20)), some (.val (mkRat 123 100)), .ok⟩]
    (by rfl) _ (by simp)

/-- C2 counterexample: a parsed body that is JSON `null` makes the
classifier throw (the property access `data.Note` raises a TypeError),
so the classifier is not exception-free over all reachable response
shapes. -/
theorem classifyBody_null_throws :
    classifyBody Json.null =
      .error (.errObj "Cannot read properties of null (reading Note)") := rfl

/-- C2 amended: the classifier returns an outcome without throwing for
every parsed body that is not JSON `null` and whose quote payload's
change-percent field (where the `.replace` call can be reached) is
absent, falsy, or a string.  (It throws on a `null` body, on a body
that is not parseable JSON — `res.json()` itself throws — and on a
truthy non-string change-percent field.) -/
theorem classifyBody_total_amended (j : Json) (hnull : j ≠ .null)
    (hsafe : changeSafe j = true) : ∃ o, classifyBody j = .ok o := by
  cases j with
  | null => exact absurd rfl hnull
  | bool b => exact ⟨_, rfl⟩
  | num q => exact ⟨_, rfl⟩
  | str s => exact ⟨_, rfl⟩
  | arr es => exact ⟨_, rfl⟩
  | obj fs =>
    by_cases h1 : isStringV (lookupField fs "Note") = true
    · simp [classifyBody, getProp, h1]
    · simp only [Bool.not_eq_true] at h1
      by_cases h2 : isStringV (lookupField fs "Information") = true
      · simp [classifyBody, getProp, h1, h2]
      · simp only [Bool.not_eq_true] at h2
        by_cases h3 : truthy (lookupField fs "Error Message") = true
        · simp [classifyBody, getProp, h1, h2, h3]
        · simp only [Bool.not_eq_true] at h3
          cases hq : lookupField fs "Global Quote" with
          | none => simp [classifyBody, getProp_obj, h1, h2, h3, hq, truthy_none]
          | some quote =>
            cases quote with
            | null =>
              simp [classifyBody, getProp_obj, h1, h2, h3, hq, truthy_null]
            | bool b =>
              cases b <;>
                simp [classifyBody, getProp_obj, getProp_bool, h1, h2, h3,
                  hq, truthy_bool, truthy_none]
            | num q =>
              by_cases hq0 : q = 0 <;>
                simp [classifyBody, getProp_obj, getProp_num, h1, h2, h3,
                  hq, truthy_num, truthy_none, hq0]
            | str s =>
              by_cases hs0 : s = "" <;>
                simp [classifyBody, getProp_obj, getProp_str, h1, h2, h3,
                  hq, truthy_str, truthy_none, hs0]
            | arr es =>
              simp [classifyBody, getProp_obj, getProp_arr, h1, h2, h3, hq,
                truthy_arr, truthy_none]
            | obj qs =>
              cases hp : lookupField qs "05. price" with
              | none =>
                simp [classifyBody, getProp_obj, h1, h2, h3, hq, hp,
                  truthy_obj, truthy_none]
              | some pv =>
                by_cases hpt : truthy (some pv) = true
                · cases hcv : lookupField qs "10. change percent" with
                  | none =>
                    simp [classifyBody, getProp_obj, h1, h2, h3, hq, hp,
                      hpt, hcv, truthy_obj, truthy_none]
                  | some cv =>
                    by_cases hct : truthy (some cv) = true
                    · have hstr : isStringV (some cv) = true := by
                        simp only [changeSafe, hq, hcv, hct,
                          Bool.not_true, Bool.false_or] at hsafe
                        exact hsafe
                      cases cv with
                      | str s' =>
                        simp [classifyBody, getProp_obj, h1, h2, h3, hq,
                          hp, hpt, hcv, hct, truthy_obj]
                      | null => simp [isStringV] at hstr
                      | bool b => simp [isStringV] at hstr
                      | num q => simp [isStringV] at hstr
                      | arr es => simp [isStringV] at hstr
                      | obj fs2 => simp [isStringV] at hstr
                    · simp only [Bool.not_eq_true] at hct
                      simp [classifyBody, getProp_obj, h1, h2, h3, hq, hp,
                        hpt, hcv, hct, truthy_obj]
                · simp only [Bool.not_eq_true] at hpt
                  simp [classifyBody, getProp_obj, h1, h2, h3, hq, hp,
                    hpt, truthy_obj]

/-- Witness for C2's amended theorem at a well-formed quote body. -/
theorem classifyBody_total_amended_witness :
    ∃ o, classifyBody (.obj [("Global Quote",
      .obj [("05. price", .str "123.45"),
        ("10. change percent", .str "1.23%")])]) = .ok o :=
  classifyBody_total_amended
    (.obj [("Global Quote", .obj [("05. price", .str "123.45"),
      ("10. change percent", .str "1.23%")])])
    (fun h => Json.noConfusion h) rfl

/-- C1 (code-bug evidence): with three symbols where the second
request rejects with a network exception, the cycle does not produce
three rows — it aborts: the previous (empty) row list is kept,
`lastUpdated` stays unset, the thrown message becomes the top-level
error, and only `loading` is cleared.  The per-symbol handling catches
only non-`ok` HTTP responses, not thrown requests. -/
theorem fetchStocks_throw_aborts_batch :
    fetchStocks
      (fun i => if i = 1 then HttpResult.reject (.errObj "Failed to fetch")
        else HttpResult.resp true (.ok (.obj [("Global Quote",
          .obj [("05. price", .str "1"),
            ("10. change percent", .str "1%")])])))
      7 "A,B,C" ⟨[], false, none, none⟩ =
      ⟨[], false, some "Failed to fetch", none⟩ := by decide

/-- Field lookup on an object body, spec-side. -/
lemma fieldOf_obj (fs : List (String × Json)) (k : String) :
    fieldOf (.obj fs) k = lookupField fs k := rfl

/-- The source's `Object.keys(data).length === 0` test coincides with
the spec's "the entire body is an empty object" on object bodies. -/
lemma keysLength_obj_eq (fs : List (String × Json)) :
    (keysLength (Json.obj fs) == 0) = isEmptyObj (.obj fs) := by
  cases fs with
  | nil => rfl
  | cons p ps =>
    simp [keysLength, isEmptyObj, List.dedup_eq_nil]

/-- A body with a successful field lookup is not the empty object. -/
lemma isEmptyObj_of_lookup {fs : List (String × Json)} {k : String}
    {v : Json} (hq : lookupField fs k = some v) :
    isEmptyObj (.obj fs) = false := by
  cases fs with
  | nil => simp [lookupField] at hq
  | cons p ps => rfl

/-- Trailing-strip commutes with a two-deep cons. -/
lemma stripTrailing_cons (c d : Char) (ds : List Char) :
    stripTrailingPercent (c :: d :: ds) = c :: stripTrailingPercent (d :: ds) := by
  simp only [stripTrailingPercent, List.getLast?_cons_cons]
  by_cases hl : (d :: ds).getLast? = some '%'
  · simp [hl, List.dropLast_cons₂]
  · simp [hl]

/-- Parsing the default `"0"` gives zero. -/
lemma parseFloatStr_zero : parseFloatStr "0" = .val 0 := rfl

/-- When `%` occurs at most as the final character, removing the first
occurrence (the source) and stripping a trailing one (the spec)
agree. -/
lemma stripFirst_eq_stripTrailing :
    ∀ cs : List Char, ¬ '%' ∈ cs.dropLast →
      stripFirstPercent cs = stripTrailingPercent cs := by
  intro cs
  induction cs with
  | nil => intro h; rfl
  | cons c cs ih =>
    intro h
    cases cs with
    | nil =>
      by_cases hc : c = '%'
      · subst hc
        rfl
      · simp [stripFirstPercent, stripTrailingPercent, hc]
    | cons d ds =>
      rw [List.dropLast_cons₂] at h
      simp only [List.mem_cons, not_or] at h
      obtain ⟨hc, h'⟩ := h
      have hcne : c ≠ '%' := fun hh => hc hh.symm
      have ih' := ih (by simpa using h')
      rw [stripTrailing_cons, ← ih']
      simp [stripFirstPercent, hcne]

/-- C3 counterexample: a parsed body that is the JSON number `5` (not
an object) is classified `rate-limited` by the source, while the
spec's ordered rules — the body is not an empty object — give
`no-data`. -/
theorem classifyBody_nonobject_diverges :
    classifyBody (.num 5) = .ok ⟨.rateLimited, none, none⟩ ∧
      specClassify (.num 5) = ⟨.noData, none, none⟩ := ⟨rfl, rfl⟩

/-- C3 amended: on parsed bodies that are (non-null) JSON objects
whose quote payload's change-percent field is absent or a non-empty
string with `%` at most as its final character, classification follows
the spec's ordered first-match rules exactly; the spec's worked
examples hold as stated. -/
theorem classifyBody_spec_rules :
    (∀ fs : List (String × Json), changeFieldTame fs = true →
      classifyBody (.obj fs) = .ok (specClassify (.obj fs))) ∧
    classifyBody (.obj [("Global Quote", .obj [("05. price", .str "123.45"),
        ("10. change percent", .str "1.23%")])]) =
      .ok ⟨.ok, some (.val (mkRat 2469 20)), some (.val (mkRat 123 100))⟩ ∧
    classifyBody (.obj []) = .ok ⟨.rateLimited, none, none⟩ ∧
    classifyBody (.obj [("Global Quote", .obj [])]) =
      .ok ⟨.noData, none, none⟩ := by
  refine ⟨fun fs htame => ?_, by rfl, rfl, rfl⟩
  by_cases h1 : isStringV (lookupField fs "Note") = true
  · simp [classifyBody, specClassify, fieldOf, getProp_obj, h1]
  · simp only [Bool.not_eq_true] at h1
    by_cases h2 : isStringV (lookupField fs "Information") = true
    · simp [classifyBody, specClassify, fieldOf, getProp_obj, h1, h2]
    · simp only [Bool.not_eq_true] at h2
      by_cases h3 : truthy (lookupField fs "Error Message") = true
      · simp [classifyBody, specClassify, fieldOf, getProp_obj, h1, h2, h3]
      · simp only [Bool.not_eq_true] at h3
        cases hq : lookupField fs "Global Quote" with
        | none =>
          simp [classifyBody, specClassify, fieldOf, getProp_obj, h1,
            h2, h3, hq, truthy_none, keysLength_obj_eq]
          split <;> rfl
        | some quote =>
          have hne : isEmptyObj (.obj fs) = false := isEmptyObj_of_lookup hq
          cases quote with
          | null =>
            simp [classifyBody, specClassify, fieldOf, getProp_obj,
              h1, h2, h3, hq, truthy_null, keysLength_obj_eq, hne]
          | bool b =>
            cases b <;>
              simp [classifyBody, specClassify, fieldOf, getProp_obj,
                getProp_bool, h1, h2, h3, hq, truthy_bool, truthy_none,
                keysLength_obj_eq, hne]
          | num q =>
            by_cases hq0 : q = 0 <;>
              simp [classifyBody, specClassify, fieldOf, getProp_obj,
                getProp_num, h1, h2, h3, hq, truthy_num, truthy_none,
                keysLength_obj_eq, hne, hq0]
          | str s =>
            by_cases hs0 : s = "" <;>
              simp [classifyBody, specClassify, fieldOf, getProp_obj,
                getProp_str, h1, h2, h3, hq, truthy_str, truthy_none,
                keysLength_obj_eq, hne, hs0]
          | arr es =>
            simp [classifyBody, specClassify, fieldOf, getProp_obj,
              getProp_arr, h1, h2, h3, hq, truthy_arr, truthy_none,
              keysLength_obj_eq, hne]
          | obj qs =>
            cases hp : lookupField qs "05. price" with
            | none =>
              simp [classifyBody, specClassify, fieldOf, getProp_obj,
                h1, h2, h3, hq, hp, truthy_obj, truthy_none,
                keysLength_obj_eq, hne]
            | some pv =>
              by_cases hpt : truthy (some pv) = true
              · cases hcv : lookupField qs "10. change percent" with
                | none =>
                  simp [classifyBody, specClassify, specChange, fieldOf,
                    getProp_obj, h1, h2, h3, hq, hp, hpt, hcv, truthy_obj,
                    truthy_none, keysLength_obj_eq, hne, parseFloatStr_zero]
                | some cv =>
                  cases cv with
                  | str s' =>
                    simp only [changeFieldTame, hq, hcv] at htame
                    rw [Bool.and_eq_true] at htame
                    obtain ⟨hs0, hnp⟩ := htame
                    have hstrip : stripFirstPercent s'.data =
                        stripTrailingPercent s'.data :=
                      stripFirst_eq_stripTrailing s'.data (by
                        simpa using hnp)
                    have hs0' : s' ≠ "" := by simpa using hs0
                    simp [classifyBody, specClassify, specChange,
                      replacePercent, fieldOf, getProp_obj, h1, h2, h3,
                      hq, hp, hpt, hcv, truthy_obj, truthy_str, hs0',
                      keysLength_obj_eq, hne, hstrip]
                  | null => simp [changeFieldTame, hq, hcv] at htame
                  | bool b => simp [changeFieldTame, hq, hcv] at htame
                  | num q2 => simp [changeFieldTame, hq, hcv] at htame
                  | arr es => simp [changeFieldTame, hq, hcv] at htame
                  | obj fs2 => simp [changeFieldTame, hq, hcv] at htame
              · simp only [Bool.not_eq_true] at hpt
                simp [classifyBody, specClassify, fieldOf, getProp_obj,
                  h1, h2, h3, hq, hp, hpt, truthy_obj, keysLength_obj_eq,
                  hne]

/-- Witness for C3's amended rule-refinement at the spec's worked
example body. -/
theorem classifyBody_spec_rules_witness :
    changeFieldTame [("Global Quote", .obj [("05. price", .str "123.45"),
        ("10. change percent", .str "1.23%")])] = true ∧
      classifyBody (.obj [("Global Quote",
          .obj [("05. price", .str "123.45"),
            ("10. change percent", .str "1.23%")])]) =
        .ok (specClassify (.obj [("Global Quote",
          .obj [("05. price", .str "123.45"),
            ("10. change percent", .str "1.23%")])])) :=
  ⟨rfl, classifyBody_spec_rules.1
    [("Global Quote", .obj [("05. price", .str "123.45"),
      ("10. change percent", .str "1.23%")])] rfl⟩

end StockDash
